import Mathlib

/-!
Verification of the shape-masking interpreter (`mask.py`).

The development shallowly embeds the source file: symbolic shapes, the shape
environment, masked values (tracers), the per-primitive rule table dispatch,
the elementwise-addition and masked reduce-sum rules, the structured-loop
(scan) rule with its carry-freezing body transformation, and the `mask`/`pad`
entry points.  Fallible Python code (KeyError, StopIteration, failed asserts,
TypeError, ValueError, IndexError, NotImplementedError) is modelled with
`Except Err`.  Machinery supplied by the surrounding IR framework (jaxpr
evaluation, the scan primitive, the numeric kernels) is not part of the file
under verification and is modelled from the spec where needed; such
definitions carry a doc comment starting with `Modelled from the spec:`.
-/

deriving instance DecidableEq for Except

namespace Masking

/-- A dimension descriptor of a symbolic shape: a concrete integer or a
dimension-name symbol (source: entries of `ShapeExpr.shape`, each `int` or
`str`). -/
inductive Dim where
  | fixed (n : Nat)
  | sym (name : String)
deriving DecidableEq, Repr

/-- Source `ShapeExpr`: an immutable ordered sequence of dimension
descriptors.  Source `__eq__` compares the tuples structurally (symbols by
name, integers by value), which is exactly structural equality here. -/
structure ShapeExpr where
  shape : List Dim
deriving DecidableEq, Repr

/-- `True` iff the descriptor is a concrete integer (source: `type(s) is int`). -/
def Dim.isFixed : Dim → Bool
  | .fixed _ => true
  | .sym _ => false

/-- The error outcomes of the source, one constructor per Python exception
site:
* `shapeError` — the `ShapeError` class raised by `add_masking_rule`;
* `unboundSymbol d` — `KeyError` from `shape_env[d]` (the spec's
  UnboundSymbolError);
* `unsupportedPrimitive p` — `KeyError` from `masking_rules[primitive]`
  (the spec's UnsupportedPrimitiveError);
* `stopIteration` — `next()` on an exhausted generator in
  `MaskTrace.process_primitive` when no operand carries a shape environment;
* `assertionError` — a failed Python `assert` (`safe_map`/`safe_zip` arity
  checks, and the output-shape assert in `pad`);
* `typeError` — `reduce()` of an empty sequence with no initial value;
* `valueError` — unpacking a tuple/set of the wrong size, or numpy refusing
  to broadcast two arrays;
* `indexError` — indexing an empty list or the shape of a scalar;
* `notImplementedError` — `MaskTrace.process_call`. -/
inductive Err where
  | shapeError
  | unboundSymbol (name : String)
  | unsupportedPrimitive (prim : String)
  | stopIteration
  | assertionError
  | typeError
  | valueError
  | indexError
  | notImplementedError
deriving DecidableEq, Repr

/-- The Shape Environment: a mapping from dimension name to its dynamic size
for the current call (source: the `shape_env` dict). -/
abbrev Env := List (String × Nat)

/-- `shape_env[d]`: dict lookup, raising `KeyError` (spec: UnboundSymbolError)
when the name is absent. -/
def lookupEnv (env : Env) (d : String) : Except Err Nat :=
  match List.lookup d env with
  | some n => .ok n
  | none => .error (.unboundSymbol d)

/-- A runtime value: a scalar integer or a one-dimensional integer array.
The rank-one value model covers every shape the repository exercises. -/
inductive Val where
  | scalar (i : Int)
  | array (elems : List Int)
deriving DecidableEq, Repr

/-- Extract a scalar (a rank-zero value); anything else is a type error. -/
def asScalar : Val → Except Err Int
  | .scalar i => .ok i
  | .array _ => .error .typeError

/-- Extract the elements of an array value. -/
def asArray : Val → Except Err (List Int)
  | .array l => .ok l
  | .scalar _ => .error .typeError

/-- `onp.shape(val)`: the concrete physical shape of a value. -/
def valShape : Val → List Nat
  | .scalar _ => []
  | .array l => [l.length]

/-- Source `MaskTracer`: the Masked Value triple of (optional) shape
environment, padded concrete value, and symbolic shape. -/
structure MaskTracer where
  shape_env : Option Env
  val : Val
  shape_expr : ShapeExpr
deriving DecidableEq, Repr

/-- Resolve a list of dimension descriptors against the environment, in
order, exactly as the list comprehension in `MaskTracer.aval` does: the
first unbound symbol raises `KeyError`. -/
def derefShape (env : Env) : List Dim → Except Err (List Nat)
  | [] => .ok []
  | .fixed n :: rest => do
      let r ← derefShape env rest
      .ok (n :: r)
  | .sym s :: rest => do
      let n ← lookupEnv env s
      let r ← derefShape env rest
      .ok (n :: r)

/-- Source `MaskTracer.aval`: with a shape environment present, the abstract
value's shape substitutes every symbol by its dynamic size; without one it is
the value's physical shape.  (The dtype component is dropped.) -/
def MaskTracer.aval (t : MaskTracer) : Except Err (List Nat) :=
  match t.shape_env with
  | some env => derefShape env t.shape_expr.shape
  | none => .ok (valShape t.val)

/-- The result of `full_lower`: either the tracer kept as-is or the plain
padded value it was demoted to. -/
inductive Lowered where
  | tracer (t : MaskTracer)
  | plain (v : Val)
deriving DecidableEq, Repr

/-- Source `MaskTracer.full_lower`: a tracer whose symbolic shape is fully
concrete is demoted to its plain padded value. -/
def MaskTracer.full_lower (t : MaskTracer) : Lowered :=
  if t.shape_expr.shape.all Dim.isFixed then .plain t.val else .tracer t

/-- Source `MaskTrace.pure` (and the identical `lift`): a plain constant is
wrapped with *no* shape environment and its concrete shape as symbolic
shape. -/
def maskTracePure (val : Val) : MaskTracer :=
  ⟨none, val, ShapeExpr.mk ((valShape val).map Dim.fixed)⟩

/-- The type of a masking rule as dispatch sees it: shape environment,
operand values, operand symbolic shapes, to output values and output
symbolic shapes.  (Static primitive parameters are already applied;
single-result primitives are the singleton-list case.) -/
abbrev MaskingRule :=
  Env → List Val → List ShapeExpr → Except Err (List Val × List ShapeExpr)

/-- `next(t.shape_env for t in tracers if t.shape_env is not None)`: the
first operand-carried shape environment; `StopIteration` if no operand
carries one. -/
def firstEnv (tracers : List MaskTracer) : Except Err Env :=
  match tracers.findSome? MaskTracer.shape_env with
  | some e => .ok e
  | none => .error .stopIteration

/-- `safe_map`/`safe_zip` over two lists: Python asserts the lengths agree. -/
def zipWithSafe (f : α → β → γ) (a : List α) (b : List β) : Except Err (List γ) :=
  if a.length = b.length then .ok (List.zipWith f a b) else .error .assertionError

/-- `masking_rules[primitive]`: dict lookup in the rule table, raising
`KeyError` (spec: UnsupportedPrimitiveError) on a miss. -/
def lookupRule (masking_rules : String → Option MaskingRule) (primitive : String) :
    Except Err MaskingRule :=
  match masking_rules primitive with
  | some r => .ok r
  | none => .error (.unsupportedPrimitive primitive)

/-- Source `MaskTrace.process_primitive`: recover the live shape environment
from the first operand that carries one, look the primitive up in the rule
table, run the rule, and wrap every output with that same environment.
The rule table is abstracted as a partial map from primitive name to rule. -/
def process_primitive (masking_rules : String → Option MaskingRule)
    (primitive : String) (tracers : List MaskTracer) :
    Except Err (List MaskTracer) := do
  let shape_env ← firstEnv tracers
  let rule ← lookupRule masking_rules primitive
  let out ←
    rule shape_env (tracers.map MaskTracer.val) (tracers.map MaskTracer.shape_expr)
  zipWithSafe (fun v s => MaskTracer.mk (some shape_env) v s) out.1 out.2

/-- Source `MaskTrace.process_call`: unconditionally `NotImplementedError`. -/
def process_call (call_primitive : String)
    (f : List Val → Except Err (List Val)) (tracers : List MaskTracer) :
    Except Err (List MaskTracer) :=
  .error .notImplementedError

/-! ## Numeric kernels (external collaborators) -/

/-- Modelled from the spec: the numeric kernel's iota-compare,
`broadcasted_iota(int32, (L,), 0) < n` — position index against dynamic
size. -/
def iotaLt (L n : Nat) : List Bool :=
  (List.range L).map (fun i => decide (i < n))

/-- Modelled from the spec: the numeric kernel's `select` on rank-one
operands — keep the operand where the mask holds, the fill elsewhere. -/
def select : List Bool → List Int → List Int → List Int
  | b :: bs, x :: xs, z :: zs => (if b then x else z) :: select bs xs zs
  | _, _, _ => []

/-- Modelled from the spec: `zeros_like_array` — the reduction's identity
element at every position of the operand. -/
def zerosLike (l : List Int) : List Int := List.replicate l.length 0

/-- Python `reduce(operator.and_, masks)`: elementwise AND of the boolean
masks; `reduce` of an empty sequence with no initial value raises
`TypeError`. -/
def reduceAnd : List (List Bool) → Except Err (List Bool)
  | [] => .error .typeError
  | m :: ms => .ok (ms.foldl (fun a b => List.zipWith and a b) m)

/-- Modelled from the spec: the numeric kernel's reduce-sum primitive on a
value of rank at most one (`lax.reduce_sum_p` executed on a plain padded
value). -/
def reduce_sum_impl (axes : List Nat) : Val → Except Err Val
  | .scalar i => if axes = [] then .ok (.scalar i) else .error .indexError
  | .array l => if 0 ∈ axes then .ok (.scalar l.sum) else .ok (.array l)

/-- Modelled from the spec: the numeric kernel's elementwise addition
(`x + y` on padded values).  A scalar broadcasts against an array; two
arrays whose physical sizes disagree cannot be broadcast and raise
`ValueError`, exactly the failure the source demo points out for
`addvecs([np.arange(5), np.arange(6)], dict(n=3))`. -/
def addVal : Val → Val → Except Err Val
  | .scalar a, .scalar b => .ok (.scalar (a + b))
  | .scalar a, .array l => .ok (.array (l.map (fun b => a + b)))
  | .array l, .scalar b => .ok (.array (l.map (fun a => a + b)))
  | .array l1, .array l2 =>
      if l1.length = l2.length then .ok (.array (List.zipWith (· + ·) l1 l2))
      else .error .valueError

/-! ## The reduce-sum and addition rules -/

/-- Python unpacking `v, = l`: exactly one element, else `ValueError`. -/
def unpack1 : List α → Except Err α
  | [v] => .ok v
  | _ => .error .valueError

/-- Python unpacking `x, y = l`: exactly two elements, else `ValueError`. -/
def unpack2 : List α → Except Err (α × α)
  | [x, y] => .ok (x, y)
  | _ => .error .valueError

/-- The mask comprehension of `reduce_sum_masking_rule`:
`[broadcasted_iota(int32, val.shape, i) < shape_env[d]
  for i, d in enumerate(in_shape) if type(d) is Var]`,
evaluated left to right with the index tracked explicitly.  The iota is
modelled for rank-one operands (`physLen` is the padded physical length), the
rank the repository exercises; a symbolic dimension at a higher axis of a
rank-one value would already be an iota error. -/
def buildMasks (env : Env) (physLen : Nat) : Nat → List Dim → Except Err (List (List Bool))
  | _, [] => .ok []
  | i, .fixed _ :: rest => buildMasks env physLen (i + 1) rest
  | i, .sym d :: rest => do
      let n ← lookupEnv env d
      let m ← (if i = 0 then Except.ok (iotaLt physLen n) else Except.error Err.indexError)
      let ms ← buildMasks env physLen (i + 1) rest
      .ok (m :: ms)

/-- The output-shape expression of `reduce_sum_masking_rule`:
`ShapeExpr(*(d for i, d in enumerate(in_shape) if i not in axes))`. -/
def reduceSumOutShape (in_shape : List Dim) (axes : List Nat) : List Dim :=
  ((in_shape.enum.filter (fun p => decide (p.1 ∉ axes))).map Prod.snd)

/-- The output shape as the spec words it: drop the reduced axes, preserving
the order of the remaining axes (stated independently of the source's
enumerate-filter phrasing, with an explicit running axis index). -/
def dropAxes (axes : List Nat) : Nat → List Dim → List Dim
  | _, [] => []
  | i, d :: rest =>
      if i ∈ axes then dropAxes axes (i + 1) rest
      else d :: dropAxes axes (i + 1) rest

/-- Source `reduce_sum_masking_rule`: build a validity mask per symbolic
axis, AND them, select the operand against zeros, reduce the cleaned value
at the full padded extent, and drop the reduced axes from the symbolic
shape.  (`input_shape` is the primitive's static parameter, unused, as in
the source.) -/
def reduce_sum_masking_rule (shape_env : Env) (vals : List Val)
    (shape_exprs : List ShapeExpr) (axes : List Nat) (input_shape : List Nat) :
    Except Err (Val × ShapeExpr) := do
  let val ← unpack1 vals
  let in_shape ← unpack1 shape_exprs
  let arr ← asArray val
  let masks ← buildMasks shape_env arr.length 0 in_shape.shape
  let mask ← reduceAnd masks
  let masked_val := select mask arr (zerosLike arr)
  let out_val ← reduce_sum_impl axes (Val.array masked_val)
  .ok (out_val, ShapeExpr.mk (reduceSumOutShape in_shape.shape axes))

/-- Source `add_masking_rule`: require the two symbolic shapes to be
literally equal, else `ShapeError`; on success add the padded values
directly. -/
def add_masking_rule (shape_env : Env) (vals : List Val)
    (shape_exprs : List ShapeExpr) : Except Err (Val × ShapeExpr) := do
  let (x, y) ← unpack2 vals
  let (x_shape, y_shape) ← unpack2 shape_exprs
  if x_shape = y_shape then do
    let v ← addVal x y
    .ok (v, x_shape)
  else .error .shapeError

/-! ## The structured-loop (scan) rule -/

/-- An abstract value type (shape only; the dtype is dropped).  A scalar is
`[]`. -/
abbrev Aval := List Nat

/-- Modelled from the spec: a typed jaxpr of the upstream IR provider — a
computation with declared input and output types whose evaluation is a
function on value lists.  (`core.TypedJaxpr`; `_make_typed_jaxpr`'s tracing
step is modelled as packaging the body function with its declared types.) -/
structure TypedJaxpr where
  in_avals : List Aval
  out_avals : List Aval
  f : List Val → Except Err (List Val)

/-- Modelled from the spec: `core.jaxpr_as_fun` — evaluating a typed jaxpr
applies its body to exactly its declared inputs; the evaluator zips the
arguments with the jaxpr's input variables (`safe_map`), so an arity
mismatch fails the assert. -/
def jaxpr_as_fun (jaxpr : TypedJaxpr) (args : List Val) : Except Err (List Val) :=
  if args.length = jaxpr.in_avals.length then jaxpr.f args else .error .assertionError

/-- `i_carry[0]`: `IndexError` on an empty list. -/
def headVal : List Val → Except Err Val
  | [] => .error .indexError
  | v :: _ => .ok v

/-- `[lax.select(pred, new_c, c) for new_c, c in zip(new_carry, carry)]` with
`zip = safe_zip`: the per-field conditional select under one shared
predicate; `safe_zip` asserts the two lists have equal length. -/
def selectCarry (b : Bool) (new_carry carry : List Val) : Except Err (List Val) :=
  if new_carry.length = carry.length then
    .ok (List.zipWith (fun nw od => if b then nw else od) new_carry carry)
  else .error .assertionError

/-- The transformed loop body built by `_masked_scan_jaxpr` (source lines
153-161): split off the constants and the counter-augmented carry, run the
original body, replace each tentative carry field by a select under
`counter < dynamic_length`, and increment the counter.  NOTE the source
calls `fun(*(carry + xs))`, *omitting the constants it just split off* —
the embedding reproduces that faithfully (`consts` is bound and unused). -/
def maskedBody (jaxpr : TypedJaxpr) (dynamic_length : Int)
    (num_consts num_carry : Nat) (args : List Val) : Except Err (List Val) := do
  let _consts := args.take num_consts
  let rest := args.drop num_consts
  let i_carry := rest.take (num_carry + 1)
  let xs := rest.drop (num_carry + 1)
  let i ← headVal i_carry
  let carry := i_carry.drop 1
  let out ← jaxpr_as_fun jaxpr (carry ++ xs)
  let new_carry := out.take num_carry
  let ys := out.drop num_carry
  let iv ← asScalar i
  let frozen ← selectCarry (decide (iv < dynamic_length)) new_carry carry
  .ok (Val.scalar (iv + 1) :: (frozen ++ ys))

/-- Source `_masked_scan_jaxpr`: the masked body packaged as a typed jaxpr
whose inputs are `const_avals + [i_aval] + carry_avals + x_avals` (the
counter is a scalar) and whose outputs are the counter, the carry and the
per-step outputs. -/
def masked_scan_jaxpr (jaxpr : TypedJaxpr) (dynamic_length : Int)
    (num_consts num_carry : Nat) : TypedJaxpr :=
  let const_avals := jaxpr.in_avals.take num_consts
  let carry_avals := (jaxpr.in_avals.drop num_consts).take num_carry
  let x_avals := (jaxpr.in_avals.drop num_consts).drop num_carry
  { in_avals := const_avals ++ ([] : Aval) :: (carry_avals ++ x_avals)
    out_avals := ([] : Aval) :: (carry_avals ++ jaxpr.out_avals.drop num_carry)
    f := maskedBody jaxpr dynamic_length num_consts num_carry }

/-- Source `_masked_scan_shape_rule`: carried outputs keep their input
symbolic shapes; each per-step output gets the (possibly symbolic) length
prepended to its per-step shape. -/
def masked_scan_shape_rule (length : Dim) (carry_shapes : List ShapeExpr)
    (y_avals : List Aval) : List ShapeExpr :=
  carry_shapes ++ y_avals.map (fun a => ShapeExpr.mk (length :: a.map Dim.fixed))

/-- `x.shape[0]` for every sequence input: the leading dimension; a scalar
has no axis 0 (`IndexError`). -/
def leadingDims : List Val → Except Err (List Nat)
  | [] => .ok []
  | .scalar _ :: _ => .error .indexError
  | .array l :: rest => do
      let r ← leadingDims rest
      .ok (l.length :: r)

/-- `max_length, = {x.shape[0] for x in xs}`: the set of leading dimensions,
unpacked as exactly one element — zero sequence inputs or disagreeing
padded lengths raise `ValueError`. -/
def uniqueLeadingDim (xs : List Val) : Except Err Nat := do
  let dims ← leadingDims xs
  match dims.dedup with
  | [n] => .ok n
  | _ => .error .valueError

/-- `length` may be a dimension symbol or a literal: resolve it through the
shape environment (source line 130). -/
def derefDim (shape_env : Env) : Dim → Except Err Int
  | .sym d => do
      let n ← lookupEnv shape_env d
      .ok (Int.ofNat n)
  | .fixed n => .ok (Int.ofNat n)

/-- Slice one sequence input at step `t` (the scan primitive peels the
leading axis). -/
def sliceAt (t : Nat) : Val → Except Err Val
  | .scalar _ => .error .indexError
  | .array l =>
      match l.get? t with
      | some v => .ok (.scalar v)
      | none => .error .indexError

/-- The per-step slice of every sequence input at step `t`. -/
def sliceRow (t : Nat) : List Val → Except Err (List Val)
  | [] => .ok []
  | v :: rest => do
      let s ← sliceAt t v
      let r ← sliceRow t rest
      .ok (s :: r)

/-- Rows `t, t+1, …` for `cnt` steps. -/
def sliceXsAux (xs : List Val) : Nat → Nat → Except Err (List (List Val))
  | _, 0 => .ok []
  | t, cnt + 1 => do
      let row ← sliceRow t xs
      let rest ← sliceXsAux xs (t + 1) cnt
      .ok (row :: rest)

/-- All per-step slices of the sequence inputs, time-major. -/
def sliceXs (length : Nat) (xs : List Val) : Except Err (List (List Val)) :=
  sliceXsAux xs 0 length

/-- Modelled from the spec: the loop of the scan primitive — at each step
the body receives the constants, the current carry and the step's slice;
its outputs split into the next carry and the step's emitted outputs. -/
def scanLoop (body : List Val → Except Err (List Val)) (num_carry : Nat)
    (consts : List Val) : List Val → List (List Val) → Except Err (List Val × List (List Val))
  | carry, [] => .ok (carry, [])
  | carry, x :: rest => do
      let out ← body (consts ++ (carry ++ x))
      let r ← scanLoop body num_carry consts (out.take num_carry) rest
      .ok (r.1, out.drop num_carry :: r.2)

/-- The `j`-th entry of every emitted row, as scalars (stacking requires the
per-step outputs to be rank-zero in this rank-one value model). -/
def stackCol (j : Nat) : List (List Val) → Except Err (List Int)
  | [] => .ok []
  | row :: rest => do
      let v ← (match row.get? j with
        | some v => Except.ok v
        | none => Except.error Err.indexError)
      let i ← asScalar v
      let r ← stackCol j rest
      .ok (i :: r)

/-- Stack output fields `j, j+1, …` for `cnt` fields into arrays over time. -/
def stackYsAux (yss : List (List Val)) : Nat → Nat → Except Err (List Val)
  | _, 0 => .ok []
  | j, cnt + 1 => do
      let col ← stackCol j yss
      let rest ← stackYsAux yss (j + 1) cnt
      .ok (Val.array col :: rest)

/-- Stack the time-major emitted rows into one array per output field. -/
def stackYs (num_ys : Nat) (yss : List (List Val)) : Except Err (List Val) :=
  stackYsAux yss 0 num_ys

/-- Modelled from the spec: execution of the scan primitive
(`lax.scan_p.bind`) — split the flat operand list into constants, initial
carry and sequence inputs, run the body for exactly `length` steps
(reversed when `forward` is false), and return the final carry followed by
the stacked per-step outputs. -/
def scan_bind (forward : Bool) (length : Nat) (jaxpr : TypedJaxpr)
    (num_consts num_carry : Nat) (in_vals : List Val) : Except Err (List Val) := do
  let consts := in_vals.take num_consts
  let init := (in_vals.drop num_consts).take num_carry
  let xs := (in_vals.drop num_consts).drop num_carry
  let slices0 ← sliceXs length xs
  let slices := if forward then slices0 else slices0.reverse
  let r ← scanLoop (jaxpr_as_fun jaxpr) num_carry consts init slices
  let yss := if forward then r.2 else r.2.reverse
  let stacked ← stackYs (jaxpr.out_avals.length - num_carry) yss
  .ok (r.1 ++ stacked)

/-- Source `scan_masking_rule`: resolve the dynamic length, split the
operands, take the shared padded length off the sequence inputs, build the
masked jaxpr with a counter prepended to the carry (initialised to `0`),
run the scan at the full padded length, and drop the counter from the
results.  (`linear` is threaded by the source for the bind call only and
does not affect values.) -/
def scan_masking_rule (shape_env : Env) (vals : List Val)
    (shape_exprs : List ShapeExpr) (forward : Bool) (length : Dim)
    (jaxpr : TypedJaxpr) (num_consts num_carry : Nat) (linear : List Bool) :
    Except Err (List Val × List ShapeExpr) := do
  let dynamic_length ← derefDim shape_env length
  let consts := vals.take num_consts
  let init := (vals.drop num_consts).take num_carry
  let xs := (vals.drop num_consts).drop num_carry
  let max_length ← uniqueLeadingDim xs
  let init_shapes := (shape_exprs.drop num_consts).take num_carry
  let y_avals := jaxpr.out_avals.drop num_carry
  let out_shapes := masked_scan_shape_rule length init_shapes y_avals
  let masked_jaxpr := masked_scan_jaxpr jaxpr dynamic_length num_consts num_carry
  let out_vals ← scan_bind forward max_length masked_jaxpr num_consts (1 + num_carry)
      (consts ++ Val.scalar 0 :: (init ++ xs))
  .ok (out_vals.drop 1, out_shapes)

/-! ## The mask driver and the pad wrapper -/

/-- Source `mask` (with `mask_subtrace`): open an interpretation context,
wrap every input value with its declared symbolic shape and the single
shared shape environment, run the computation on the tracers, and unwrap
each output back into a (value, symbolic shape) pair.  The tracing
machinery (`new_master`, `full_raise`) belongs to the external IR
collaborator; the computation is therefore modelled as the function the
trace interprets, from input tracers to output tracers.  `safe_map` over
inputs asserts that values and shapes have equal arity. -/
def mask (f : List MaskTracer → Except Err (List MaskTracer)) (shape_env : Env)
    (in_vals : List Val) (shape_exprs : List ShapeExpr) :
    Except Err (List Val × List ShapeExpr) := do
  let in_tracers ← zipWithSafe (fun v s => MaskTracer.mk (some shape_env) v s)
      in_vals shape_exprs
  let outs ← f in_tracers
  .ok (outs.map MaskTracer.val, outs.map MaskTracer.shape_expr)

/-- Source `pad`: run `mask`, then `assert tuple(out_shapes_) == tuple(out_shapes)` —
a failed Python assert raises `AssertionError`. -/
def pad (f : List MaskTracer → Except Err (List MaskTracer))
    (in_shapes out_shapes : List ShapeExpr) (args : List Val) (shape_env : Env) :
    Except Err (List Val) := do
  let (outs, out_shapes2) ← mask f shape_env args in_shapes
  if out_shapes2 = out_shapes then .ok outs else .error .assertionError

/-! ## Helper lemmas -/

/-- `true` iff the computation succeeded. -/
def exceptOk : Except Err α → Bool
  | .ok _ => true
  | .error _ => false

@[simp] theorem exbind_ok (a : α) (g : α → Except Err β) :
    (Except.ok a >>= g) = g a := rfl

@[simp] theorem exbind_error (e : Err) (g : α → Except Err β) :
    ((Except.error e : Except Err α) >>= g) = Except.error e := rfl

@[simp] theorem exceptOk_bind_ok_comp (e : Except Err α) (g : α → β) :
    exceptOk (e >>= fun v => Except.ok (g v)) = exceptOk e := by
  cases e <;> rfl

theorem mem_zipWith_mk_env {e : Env} :
    ∀ (l1 : List Val) (l2 : List ShapeExpr) (o : MaskTracer),
      o ∈ List.zipWith (fun v s => MaskTracer.mk (some e) v s) l1 l2 →
      o.shape_env = some e := by
  intro l1
  induction l1 with
  | nil => intro l2 o h; simp at h
  | cons a l ih =>
    intro l2 o h
    cases l2 with
    | nil => simp at h
    | cons b l2 =>
      rcases List.mem_cons.mp (by simpa using h) with h1 | h1
      · subst h1; rfl
      · exact ih l2 o h1

theorem firstEnv_ok_mem {tracers : List MaskTracer} {e : Env}
    (h : firstEnv tracers = .ok e) : ∃ t, t ∈ tracers ∧ t.shape_env = some e := by
  unfold firstEnv at h
  cases hf : tracers.findSome? MaskTracer.shape_env with
  | none => rw [hf] at h; cases h
  | some e0 =>
    rw [hf] at h
    obtain rfl : e0 = e := by cases h; rfl
    obtain ⟨t, ht, he⟩ := List.exists_of_findSome?_eq_some hf
    exact ⟨t, ht, he⟩

theorem findSomeEnv_none :
    ∀ (l : List MaskTracer), (∀ t ∈ l, t.shape_env = none) →
      l.findSome? MaskTracer.shape_env = none := by
  intro l
  induction l with
  | nil => intro _; rfl
  | cons a l ih =>
    intro h
    have ha := h a (List.mem_cons_self a l)
    have hl := ih (fun t ht => h t (List.mem_cons_of_mem a ht))
    simp [List.findSome?_cons, ha, hl]

theorem firstEnv_none {tracers : List MaskTracer}
    (h : ∀ t ∈ tracers, t.shape_env = none) :
    firstEnv tracers = .error .stopIteration := by
  unfold firstEnv
  rw [findSomeEnv_none tracers h]

theorem derefShape_unbound (env : Env) :
    ∀ (dims : List Dim) (d : String), Dim.sym d ∈ dims →
      List.lookup d env = none →
      ∃ d2, List.lookup d2 env = none ∧
        derefShape env dims = .error (.unboundSymbol d2) := by
  intro dims
  induction dims with
  | nil => intro d h; simp at h
  | cons a rest ih =>
    intro d hmem hnone
    cases a with
    | fixed n =>
      have hm : Dim.sym d ∈ rest := by
        rcases List.mem_cons.mp hmem with heq | h1
        · cases heq
        · exact h1
      obtain ⟨d2, h1, h2⟩ := ih d hm hnone
      exact ⟨d2, h1, by simp [derefShape, h2]⟩
    | sym s =>
      cases hs : List.lookup s env with
      | none => exact ⟨s, hs, by simp [derefShape, lookupEnv, hs]⟩
      | some v =>
        have hm : Dim.sym d ∈ rest := by
          rcases List.mem_cons.mp hmem with heq | h1
          · exfalso
            injection heq with hds
            rw [hds] at hnone
            rw [hnone] at hs
            cases hs
          · exact h1
        obtain ⟨d2, h1, h2⟩ := ih d hm hnone
        exact ⟨d2, h1, by simp [derefShape, lookupEnv, hs, h2]⟩

theorem sum_select_iota_from (x : List Int) : ∀ (s n : Nat),
    (select ((List.range' s x.length).map (fun i => decide (i < n))) x (zerosLike x)).sum
      = ((x.take (n - s)).sum) := by
  induction x with
  | nil => intro s n; simp [select, zerosLike]
  | cons a xs ih =>
    intro s n
    have hz : zerosLike (a :: xs) = 0 :: zerosLike xs := by
      simp [zerosLike, List.replicate]
    rw [List.length_cons, List.range'_succ, List.map_cons, hz, select, List.sum_cons]
    rw [ih (s + 1) n]
    by_cases h : s < n
    · have hn : n - s = (n - (s + 1)) + 1 := by omega
      rw [hn, List.take_succ_cons, List.sum_cons]
      simp [h]
    · have hn : n - s = 0 := by omega
      have hn2 : n - (s + 1) = 0 := by omega
      simp [h, hn, hn2]

theorem sum_select_iota (x : List Int) (n : Nat) :
    (select (iotaLt x.length n) x (zerosLike x)).sum = (x.take n).sum := by
  have h := sum_select_iota_from x 0 n
  simpa [iotaLt, List.range_eq_range'] using h

theorem reduceSumOutShape_enumFrom (axes : List Nat) :
    ∀ (shape : List Dim) (i : Nat),
      ((List.enumFrom i shape).filter (fun p => decide (p.1 ∉ axes))).map Prod.snd
        = dropAxes axes i shape := by
  intro shape
  induction shape with
  | nil => intro i; rfl
  | cons d rest ih =>
    intro i
    rw [List.enumFrom_cons, List.filter_cons]
    by_cases h : i ∈ axes
    · rw [if_neg (by simp [h])]
      simp only [dropAxes]
      rw [if_pos h]
      exact ih (i + 1)
    · rw [if_pos (by simp [h])]
      simp only [dropAxes]
      rw [if_neg h, List.map_cons, ih (i + 1)]

theorem exceptOk_addVal_comm (x y : Val) :
    exceptOk (addVal x y) = exceptOk (addVal y x) := by
  cases x with
  | scalar a =>
    cases y <;> rfl
  | array l1 =>
    cases y with
    | scalar b => rfl
    | array l2 =>
      by_cases h : l1.length = l2.length
      · simp only [addVal]
        rw [if_pos h, if_pos h.symm]
        rfl
      · simp only [addVal]
        rw [if_neg h, if_neg (fun hh => h hh.symm)]

/-! ## Scan lemmas -/

theorem zipWith_fst_eq {α β : Type} :
    ∀ (l1 : List α) (l2 : List β), l1.length = l2.length →
      List.zipWith (fun a _ => a) l1 l2 = l1 := by
  intro l1
  induction l1 with
  | nil => intro l2 _; rfl
  | cons a l ih =>
    intro l2 h
    cases l2 with
    | nil => cases h
    | cons b l2 =>
      simp only [List.zipWith_cons_cons]
      rw [ih l2 (by simpa using h)]

theorem zipWith_snd_eq {α β : Type} :
    ∀ (l1 : List α) (l2 : List β), l1.length = l2.length →
      List.zipWith (fun _ b => b) l1 l2 = l2 := by
  intro l1
  induction l1 with
  | nil =>
    intro l2 h
    cases l2 with
    | nil => rfl
    | cons b l2 => cases h
  | cons a l ih =>
    intro l2 h
    cases l2 with
    | nil => cases h
    | cons b l2 =>
      simp only [List.zipWith_cons_cons]
      rw [ih l2 (by simpa using h)]

theorem selectCarry_eq (b : Bool) (l1 l2 : List Val) (h : l1.length = l2.length) :
    selectCarry b l1 l2 = .ok (if b then l1 else l2) := by
  unfold selectCarry
  rw [if_pos h]
  cases b
  · simp [zipWith_snd_eq l1 l2 h]
  · simp [zipWith_fst_eq l1 l2 h]

theorem dedup_const {L : Nat} :
    ∀ (l : List Nat), l ≠ [] → (∀ a ∈ l, a = L) → l.dedup = [L] := by
  intro l
  induction l with
  | nil => intro h _; exact absurd rfl h
  | cons a rest ih =>
    intro _ hall
    have ha : a = L := hall a (List.mem_cons_self _ _)
    subst ha
    cases rest with
    | nil => simp
    | cons b rest2 =>
      have hb : b = a := hall b (by simp)
      have hmem : a ∈ b :: rest2 := by simp [hb]
      rw [List.dedup_cons_of_mem hmem]
      exact ih (by simp) (fun x hx => hall x (List.mem_cons_of_mem _ hx))

theorem leadingDims_const {L : Nat} :
    ∀ (xs : List Val), (∀ v ∈ xs, ∃ l, v = Val.array l ∧ l.length = L) →
      leadingDims xs = .ok (List.replicate xs.length L) := by
  intro xs
  induction xs with
  | nil => intro _; rfl
  | cons v rest ih =>
    intro h
    obtain ⟨l, hv, hl⟩ := h v (List.mem_cons_self _ _)
    subst hv
    rw [show leadingDims (Val.array l :: rest)
        = (leadingDims rest >>= fun r => Except.ok (l.length :: r)) from rfl]
    rw [ih (fun x hx => h x (List.mem_cons_of_mem _ hx)), exbind_ok, hl]
    rfl

theorem uniqueLeadingDim_const {L : Nat} (xs : List Val) (hne : xs ≠ [])
    (h : ∀ v ∈ xs, ∃ l, v = Val.array l ∧ l.length = L) :
    uniqueLeadingDim xs = .ok L := by
  unfold uniqueLeadingDim
  rw [leadingDims_const xs h, exbind_ok]
  have hrep : (List.replicate xs.length L).dedup = [L] := by
    refine dedup_const _ ?_ ?_
    · have : xs.length ≠ 0 := fun hz => hne (List.length_eq_zero.mp hz)
      cases hx : xs.length with
      | zero => exact absurd hx this
      | succ m => simp [List.replicate]
    · intro a ha
      exact List.eq_of_mem_replicate ha
  rw [hrep]

theorem sliceRow_ok_length {t : Nat} :
    ∀ (xs : List Val) (row : List Val), sliceRow t xs = .ok row →
      row.length = xs.length := by
  intro xs
  induction xs with
  | nil =>
    intro row h
    cases h
    rfl
  | cons v rest ih =>
    intro row h
    unfold sliceRow at h
    cases hs : sliceAt t v with
    | error e => rw [hs] at h; cases h
    | ok s =>
      rw [hs, exbind_ok] at h
      cases hr : sliceRow t rest with
      | error e => rw [hr] at h; cases h
      | ok r =>
        rw [hr, exbind_ok] at h
        cases h
        simp [ih r hr]

theorem sliceXsAux_ok {xs : List Val} :
    ∀ (cnt t : Nat) (s : List (List Val)), sliceXsAux xs t cnt = .ok s →
      s.length = cnt ∧ ∀ row ∈ s, row.length = xs.length := by
  intro cnt
  induction cnt with
  | zero =>
    intro t s h
    cases h
    exact ⟨rfl, by simp⟩
  | succ c ih =>
    intro t s h
    unfold sliceXsAux at h
    cases hr : sliceRow t xs with
    | error e => rw [hr] at h; cases h
    | ok row =>
      rw [hr, exbind_ok] at h
      cases hrest : sliceXsAux xs (t + 1) c with
      | error e => rw [hrest] at h; cases h
      | ok rest =>
        rw [hrest, exbind_ok] at h
        cases h
        obtain ⟨hl, hrows⟩ := ih (t + 1) rest hrest
        refine ⟨by simp [hl], ?_⟩
        intro r hr2
        rcases List.mem_cons.mp hr2 with h1 | h1
        · subst h1; exact sliceRow_ok_length xs r hr
        · exact hrows r h1

theorem stackCol_ok {num_ys : Nat} :
    ∀ (yss : List (List Val)) (j : Nat),
      (∀ row ∈ yss, row.length = num_ys ∧ ∀ v ∈ row, ∃ i : Int, v = Val.scalar i) →
      j < num_ys → ∃ col, stackCol j yss = .ok col := by
  intro yss
  induction yss with
  | nil => intro j _ _; exact ⟨[], rfl⟩
  | cons row rest ih =>
    intro j h hj
    obtain ⟨hlen, hsc⟩ := h row (List.mem_cons_self _ _)
    have hjr : j < row.length := by rw [hlen]; exact hj
    have hget : row.get? j = some (row.get ⟨j, hjr⟩) := List.get?_eq_get hjr
    obtain ⟨iv, hiv⟩ := hsc (row.get ⟨j, hjr⟩) (List.get_mem row j hjr)
    obtain ⟨col, hcol⟩ := ih j (fun r hr => h r (List.mem_cons_of_mem _ hr)) hj
    refine ⟨iv :: col, ?_⟩
    unfold stackCol
    rw [hget]
    simp only [exbind_ok]
    rw [hiv]
    rw [show asScalar (Val.scalar iv) = Except.ok iv from rfl, exbind_ok]
    rw [hcol, exbind_ok]

theorem stackYsAux_ok {num_ys : Nat} (yss : List (List Val))
    (h : ∀ row ∈ yss, row.length = num_ys ∧ ∀ v ∈ row, ∃ i : Int, v = Val.scalar i) :
    ∀ (cnt j : Nat), j + cnt ≤ num_ys → ∃ st, stackYsAux yss j cnt = .ok st := by
  intro cnt
  induction cnt with
  | zero => intro j _; exact ⟨[], rfl⟩
  | succ c ih =>
    intro j hj
    obtain ⟨col, hcol⟩ := stackCol_ok yss j h (by omega)
    obtain ⟨st, hst⟩ := ih (j + 1) (by omega)
    refine ⟨Val.array col :: st, ?_⟩
    unfold stackYsAux
    rw [hcol, exbind_ok, hst, exbind_ok]

theorem stackYs_ok {num_ys : Nat} (yss : List (List Val))
    (h : ∀ row ∈ yss, row.length = num_ys ∧ ∀ v ∈ row, ∃ i : Int, v = Val.scalar i) :
    ∃ st, stackYs num_ys yss = .ok st :=
  stackYsAux_ok yss h num_ys 0 (by omega)

theorem scanLoop_nil (body : List Val → Except Err (List Val)) (m : Nat)
    (cs carry : List Val) : scanLoop body m cs carry [] = .ok (carry, []) := rfl

theorem scanLoop_cons (body : List Val → Except Err (List Val)) (m : Nat)
    (cs carry x : List Val) (rest : List (List Val)) :
    scanLoop body m cs carry (x :: rest)
      = (body (cs ++ (carry ++ x)) >>= fun out =>
          scanLoop body m cs (out.take m) rest >>= fun r =>
            Except.ok (r.1, out.drop m :: r.2)) := rfl

theorem scanLoop_append (body : List Val → Except Err (List Val)) (m : Nat)
    (cs : List Val) :
    ∀ (l1 l2 : List (List Val)) (carry : List Val),
      scanLoop body m cs carry (l1 ++ l2)
        = (scanLoop body m cs carry l1 >>= fun p =>
            scanLoop body m cs p.1 l2 >>= fun q => Except.ok (q.1, p.2 ++ q.2)) := by
  intro l1
  induction l1 with
  | nil =>
    intro l2 carry
    rw [List.nil_append, scanLoop_nil, exbind_ok]
    cases hq : scanLoop body m cs carry l2 with
    | error e => simp
    | ok q => simp
  | cons x l1 ih =>
    intro l2 carry
    rw [List.cons_append, scanLoop_cons, scanLoop_cons]
    cases hb : body (cs ++ (carry ++ x)) with
    | error e => simp
    | ok out =>
      simp only [exbind_ok]
      rw [ih l2 (out.take m)]
      cases h1 : scanLoop body m cs (out.take m) l1 with
      | error e => simp
      | ok p =>
        simp only [exbind_ok]
        cases h2 : scanLoop body m cs p.1 l2 with
        | error e => simp
        | ok q => simp

/-- One step of the masked body with no loop constants: the counter advances
unconditionally, the carry is the body's tentative carry exactly when
`counter < dynamic_length` and the old carry otherwise, and the step outputs
are the body's outputs untouched. -/
theorem maskedBody_step (J : TypedJaxpr) (n : Int) (k num_x num_ys : Nat)
    (hJin : J.in_avals.length = k + num_x)
    (hJout : J.out_avals.length = k + num_ys)
    (hwt : ∀ args : List Val, args.length = k + num_x →
      ∃ out, J.f args = .ok out ∧ out.length = k + num_ys ∧
        ∀ v ∈ out.drop k, ∃ j : Int, v = Val.scalar j)
    (i : Int) (carry row : List Val)
    (hc : carry.length = k) (hr : row.length = num_x) :
    ∃ out, J.f (carry ++ row) = .ok out ∧ out.length = k + num_ys ∧
      (∀ v ∈ out.drop k, ∃ j : Int, v = Val.scalar j) ∧
      jaxpr_as_fun (masked_scan_jaxpr J n 0 k) (Val.scalar i :: (carry ++ row))
        = .ok (Val.scalar (i + 1) :: ((if i < n then out.take k else carry) ++ out.drop k)) := by
  obtain ⟨out, hf, hlen, hsc⟩ := hwt (carry ++ row) (by simp [hc, hr])
  refine ⟨out, hf, hlen, hsc, ?_⟩
  have hmj_in : (masked_scan_jaxpr J n 0 k).in_avals = ([] : Aval) :: J.in_avals := by
    simp [masked_scan_jaxpr]
  unfold jaxpr_as_fun
  rw [hmj_in, if_pos (by simp [hc, hr, hJin])]
  show maskedBody J n 0 k (Val.scalar i :: (carry ++ row)) = _
  have htake : (Val.scalar i :: (carry ++ row)).take (k + 1) = Val.scalar i :: carry := by
    rw [List.take_succ_cons, ← hc, List.take_left]
  have hdrop : (Val.scalar i :: (carry ++ row)).drop (k + 1) = row := by
    rw [List.drop_succ_cons, ← hc, List.drop_left]
  have hJapp : jaxpr_as_fun J (carry ++ row) = .ok out := by
    unfold jaxpr_as_fun
    rw [if_pos (by simp [hc, hr, hJin])]
    exact hf
  have hsel := selectCarry_eq (decide (i < n)) (out.take k) carry
    (by rw [List.length_take, hlen, hc]; omega)
  simp only [maskedBody, List.take_zero, List.drop_zero]
  rw [htake, hdrop]
  rw [show headVal (Val.scalar i :: carry) = Except.ok (Val.scalar i) from rfl, exbind_ok]
  simp only [List.drop_succ_cons, List.drop_zero]
  rw [hJapp, exbind_ok]
  rw [show asScalar (Val.scalar i) = Except.ok i from rfl, exbind_ok]
  rw [hsel, exbind_ok]
  by_cases hin : i < n
  · simp [hin]
  · simp [hin]

/-- The master freeze lemma for the masked scan loop with no loop constants:
starting from counter value `i`, running the masked body over all padded
step slices succeeds, the counter ends at `i` plus the number of steps, and
the final carry equals the carry that plain iteration of the original body
obtains over just the first `(n - i)` slices. -/
theorem maskedScan_freeze (J : TypedJaxpr) (n : Int) (k num_x num_ys : Nat)
    (hJin : J.in_avals.length = k + num_x)
    (hJout : J.out_avals.length = k + num_ys)
    (hwt : ∀ args : List Val, args.length = k + num_x →
      ∃ out, J.f args = .ok out ∧ out.length = k + num_ys ∧
        ∀ v ∈ out.drop k, ∃ j : Int, v = Val.scalar j) :
    ∀ (slices : List (List Val)) (i : Int) (carry : List Val),
      carry.length = k → (∀ row ∈ slices, row.length = num_x) →
      ∃ fc yss pr,
        scanLoop (jaxpr_as_fun (masked_scan_jaxpr J n 0 k)) (k + 1) []
            (Val.scalar i :: carry) slices
          = .ok (Val.scalar (i + slices.length) :: fc, yss) ∧
        scanLoop (jaxpr_as_fun J) k [] carry (slices.take ((n - i).toNat)) = .ok pr ∧
        fc = pr.1 ∧ fc.length = k ∧ yss.length = slices.length ∧
        (∀ row ∈ yss, row.length = num_ys ∧ ∀ v ∈ row, ∃ j : Int, v = Val.scalar j) := by
  intro slices
  induction slices with
  | nil =>
    intro i carry hc _hrows
    refine ⟨carry, [], (carry, []), ?_, ?_, rfl, hc, rfl, by simp⟩
    · rw [scanLoop_nil]
      norm_num
    · simp [scanLoop_nil]
  | cons row rest ih =>
    intro i carry hc hrows
    have hrow : row.length = num_x := hrows row (List.mem_cons_self _ _)
    obtain ⟨out, hf, hlen, hsc, hmb⟩ :=
      maskedBody_step J n k num_x num_ys hJin hJout hwt i carry row hc hrow
    have hfl : (if i < n then out.take k else carry).length = k := by
      by_cases hin : i < n
      · rw [if_pos hin, List.length_take, hlen]; omega
      · rw [if_neg hin]; exact hc
    obtain ⟨fc, yss, pr, hrun, hplain, hfcpr, hfcl, hyl, hrows2⟩ :=
      ih (i + 1) (if i < n then out.take k else carry) hfl
        (fun r hr => hrows r (List.mem_cons_of_mem _ hr))
    have hJapp : jaxpr_as_fun J (carry ++ row) = .ok out := by
      unfold jaxpr_as_fun
      rw [if_pos (by simp [hc, hrow, hJin])]
      exact hf
    -- the masked run over row :: rest
    have hstep : scanLoop (jaxpr_as_fun (masked_scan_jaxpr J n 0 k)) (k + 1) []
        (Val.scalar i :: carry) (row :: rest)
        = .ok (Val.scalar (i + (rest.length + 1)) :: fc, out.drop k :: yss) := by
      rw [scanLoop_cons, List.nil_append, List.cons_append, hmb, exbind_ok]
      have ht1 : (Val.scalar (i + 1) ::
          ((if i < n then out.take k else carry) ++ out.drop k)).take (k + 1)
          = Val.scalar (i + 1) :: (if i < n then out.take k else carry) := by
        rw [List.take_succ_cons, List.take_left' hfl]
      have ht2 : (Val.scalar (i + 1) ::
          ((if i < n then out.take k else carry) ++ out.drop k)).drop (k + 1)
          = out.drop k := by
        rw [List.drop_succ_cons, List.drop_left' hfl]
      rw [ht1, ht2, hrun, exbind_ok]
      have : i + 1 + (rest.length : Int) = i + ((rest.length : Int) + 1) := by ring
      rw [this]
    refine ⟨fc, out.drop k :: yss, ?_, ?_, ?_, ?_, hfcl, by simp [hyl], ?_⟩
    · exact if hin : i < n then (pr.1, out.drop k :: pr.2) else (carry, [])
    · rw [hstep]
      norm_num
    · by_cases hin : i < n
      · rw [dif_pos hin]
        have htn : (n - i).toNat = (n - (i + 1)).toNat + 1 := by omega
        rw [htn, List.take_succ_cons, scanLoop_cons, List.nil_append, hJapp, exbind_ok]
        rw [if_pos hin] at hplain
        rw [hplain, exbind_ok]
      · rw [dif_neg hin]
        have htn : (n - i).toNat = 0 := by omega
        rw [htn, List.take_zero, scanLoop_nil]
    · by_cases hin : i < n
      · rw [dif_pos hin]
        exact hfcpr
      · rw [dif_neg hin]
        have htn : (n - (i + 1)).toNat = 0 := by omega
        rw [htn, List.take_zero, scanLoop_nil, if_neg hin] at hplain
        have : pr = (carry, []) := by
          injection hplain with h1
          exact h1.symm
        rw [hfcpr, this]
    · intro r hr
      rcases List.mem_cons.mp hr with h1 | h1
      · subst h1
        constructor
        · rw [List.length_drop, hlen]; omega
        · exact hsc
      · exact hrows2 r h1

/-! ## Claim theorems -/

/-- C1: for a one-dimensional array `x` padded to physical length `L` along a
symbolic dimension, any dynamic length `n ≤ L` bound to that dimension, and
arbitrary fill values at positions `≥ n` (the theorem quantifies over every
array of length `L`), the masked reduce-sum rule returns the ordinary sum of
the first `n` elements — which is exactly the reduction of the operand
truncated to its dynamic size — and, in general, the rule's output symbolic
shape drops the reduced axes while preserving the order of the remaining
axes. -/
theorem reduce_sum_rule_correct :
    (∀ (x : List Int) (env : Env) (d : String) (n : Nat),
        List.lookup d env = some n → n ≤ x.length →
        reduce_sum_masking_rule env [Val.array x] [ShapeExpr.mk [Dim.sym d]] [0] [x.length]
          = .ok (Val.scalar ((x.take n).sum), ShapeExpr.mk []))
  ∧ (∀ (shape : List Dim) (axes : List Nat),
        reduceSumOutShape shape axes = dropAxes axes 0 shape) := by
  constructor
  · intro x env d n hd _hn
    have hle : lookupEnv env d = Except.ok n := by
      unfold lookupEnv
      rw [hd]
    have hbm : buildMasks env x.length 0 [Dim.sym d] = .ok [iotaLt x.length n] := by
      simp only [buildMasks, hle, exbind_ok]
      simp
    have hsh : reduceSumOutShape [Dim.sym d] [0] = [] := rfl
    unfold reduce_sum_masking_rule
    rw [show unpack1 [Val.array x] = Except.ok (Val.array x) from rfl, exbind_ok]
    rw [show unpack1 [ShapeExpr.mk [Dim.sym d]] = Except.ok (ShapeExpr.mk [Dim.sym d])
      from rfl, exbind_ok]
    rw [show asArray (Val.array x) = Except.ok x from rfl, exbind_ok]
    rw [hbm, exbind_ok]
    rw [show reduceAnd [iotaLt x.length n] = Except.ok (iotaLt x.length n) from rfl,
      exbind_ok]
    simp [reduce_sum_impl, sum_select_iota, hsh]
  · intro shape axes
    have h := reduceSumOutShape_enumFrom axes shape 0
    simpa [reduceSumOutShape, List.enum] using h

/-- Witness for C1 at the source's own demo input: `padded_sum` over
`[0,1,2,3,4]` with `n = 3` returns `0 + 1 + 2 = 3`. -/
theorem reduce_sum_rule_correct_witness :
    reduce_sum_masking_rule [("n", 3)] [Val.array [0, 1, 2, 3, 4]]
      [ShapeExpr.mk [Dim.sym "n"]] [0] [5]
      = .ok (Val.scalar 3, ShapeExpr.mk []) := by
  have h := reduce_sum_rule_correct.1 [0, 1, 2, 3, 4] [("n", 3)] "n" 3 rfl (by decide)
  simpa using h

/-- C3 counterexample: the claim's "succeeds iff the symbolic shapes are
literally equal" fails — two operands with the *same* symbolic shape
`('n',)` but different padded physical sizes (5 and 6) make the rule fail
(numpy cannot broadcast them), and with `ValueError`, not `ShapeError`.
The source itself points this out: `addvecs([np.arange(5), np.arange(6)],
dict(n=3))` "is an error because padded sizes must agree". -/
theorem add_rule_equal_shapes_can_fail :
    add_masking_rule [] [Val.array [0, 1, 2, 3, 4], Val.array [0, 1, 2, 3, 4, 5]]
      [ShapeExpr.mk [Dim.sym "n"], ShapeExpr.mk [Dim.sym "n"]] = .error .valueError
  ∧ (ShapeExpr.mk [Dim.sym "n"] = ShapeExpr.mk [Dim.sym "n"])
  ∧ Err.valueError ≠ Err.shapeError := by
  refine ⟨by decide, rfl, by decide⟩

/-- C3 amended: on unequal symbolic shapes the rule always raises
`ShapeError`; on equal symbolic shapes it succeeds exactly when the padded
values themselves can be added elementwise (equal physical sizes); and
swapping the operands never changes whether the rule succeeds or fails. -/
theorem add_rule_success_characterisation (env : Env) (x y : Val) (sx sy : ShapeExpr) :
    (sx ≠ sy → add_masking_rule env [x, y] [sx, sy] = .error .shapeError)
  ∧ (sx = sy →
      add_masking_rule env [x, y] [sx, sy] = (addVal x y).map (fun v => (v, sx)))
  ∧ (exceptOk (add_masking_rule env [x, y] [sx, sy])
      = exceptOk (add_masking_rule env [y, x] [sy, sx])) := by
  refine ⟨?_, ?_, ?_⟩
  · intro h
    simp [add_masking_rule, unpack2, h]
  · intro h
    subst h
    cases ha : addVal x y <;> simp [add_masking_rule, unpack2, ha, Except.map]
  · by_cases h : sx = sy
    · subst h
      simp only [add_masking_rule, unpack2, exbind_ok, if_pos rfl]
      have hc := exceptOk_addVal_comm x y
      cases ha : addVal x y <;> cases hb : addVal y x <;>
        simp [ha, hb, exceptOk] at hc ⊢
    · have h2 : sy ≠ sx := fun hh => h hh.symm
      simp [add_masking_rule, unpack2, h, h2]

/-- Witness for C3's amended claim: distinct symbols (`'a'` vs `'b'`) raise
`ShapeError` even when the padded sizes agree. -/
theorem add_rule_success_characterisation_witness :
    (ShapeExpr.mk [Dim.sym "a"] ≠ ShapeExpr.mk [Dim.sym "b"]) ∧
    add_masking_rule [] [Val.scalar 1, Val.scalar 2]
      [ShapeExpr.mk [Dim.sym "a"], ShapeExpr.mk [Dim.sym "b"]] = .error .shapeError :=
  ⟨by decide,
    (add_rule_success_characterisation [] (Val.scalar 1) (Val.scalar 2)
      (ShapeExpr.mk [Dim.sym "a"]) (ShapeExpr.mk [Dim.sym "b"])).1 (by decide)⟩

/-- C5 counterexample: on an output-shape mismatch the wrapper fails — but
with `AssertionError` (the Python `assert`), not the `ShapeError` the claim
names. -/
theorem pad_mismatch_raises_assertion :
    pad (fun ts => .ok ts) [ShapeExpr.mk [Dim.sym "n"]] [ShapeExpr.mk [Dim.fixed 2]]
      [Val.array [1, 2, 3]] [("n", 2)] = .error .assertionError
  ∧ Err.assertionError ≠ Err.shapeError := by
  refine ⟨by decide, by decide⟩

/-- C5 amended: the wrapper never returns success when the output symbolic
shapes computed by `mask` differ from the declared ones — it always raises
an error on such a mismatch, namely `AssertionError`. -/
theorem pad_mismatch_never_success
    (f : List MaskTracer → Except Err (List MaskTracer))
    (in_shapes out_shapes : List ShapeExpr) (args : List Val) (shape_env : Env)
    (outs : List Val) (oshapes : List ShapeExpr)
    (hmask : mask f shape_env args in_shapes = .ok (outs, oshapes))
    (hne : oshapes ≠ out_shapes) :
    pad f in_shapes out_shapes args shape_env = .error .assertionError := by
  simp [pad, hmask, hne]

/-- Witness for C5's amended claim at a concrete mismatch. -/
theorem pad_mismatch_never_success_witness :
    mask (fun ts => .ok ts) [("m", 1)] [Val.scalar 5] [ShapeExpr.mk []]
      = .ok ([Val.scalar 5], [ShapeExpr.mk []]) ∧
    ([ShapeExpr.mk []] ≠ [ShapeExpr.mk [Dim.fixed 3]]) ∧
    pad (fun ts => .ok ts) [ShapeExpr.mk []] [ShapeExpr.mk [Dim.fixed 3]]
      [Val.scalar 5] [("m", 1)] = .error .assertionError :=
  ⟨rfl, by decide,
    pad_mismatch_never_success (fun ts => .ok ts) [ShapeExpr.mk []]
      [ShapeExpr.mk [Dim.fixed 3]] [Val.scalar 5] [("m", 1)]
      [Val.scalar 5] [ShapeExpr.mk []] rfl (by decide)⟩

/-- C6: when dispatch is reached with an operand-carried shape environment
and the primitive has no entry in the rule table, `process_primitive` fails
with the unsupported-primitive error (the `KeyError` of
`masking_rules[primitive]`) — no fallback, no default. -/
theorem process_primitive_missing_rule (rules : String → Option MaskingRule)
    (prim : String) (tracers : List MaskTracer) (e : Env)
    (henv : firstEnv tracers = .ok e) (hmiss : rules prim = none) :
    process_primitive rules prim tracers = .error (.unsupportedPrimitive prim) := by
  simp [process_primitive, lookupRule, henv, hmiss]

/-- Witness for C6 at a concrete tracer and an empty rule table. -/
theorem process_primitive_missing_rule_witness :
    firstEnv [⟨some [("n", 1)], Val.scalar 0, ShapeExpr.mk []⟩] = .ok [("n", 1)] ∧
    process_primitive (fun _ => none) "cos"
      [⟨some [("n", 1)], Val.scalar 0, ShapeExpr.mk []⟩]
      = .error (.unsupportedPrimitive "cos") :=
  ⟨rfl, process_primitive_missing_rule (fun _ => none) "cos"
    [⟨some [("n", 1)], Val.scalar 0, ShapeExpr.mk []⟩] [("n", 1)] rfl rfl⟩

/-- C7: a symbolic shape that references a dimension name absent from the
live shape environment makes interpretation fail with the unbound-symbol
error (`KeyError` on `shape_env[d]`): in `MaskTracer.aval`, in the masked
reduce-sum rule, and in the scan rule's length resolution. -/
theorem unbound_symbol_failure :
    (∀ (t : MaskTracer) (env : Env) (d : String),
        t.shape_env = some env → Dim.sym d ∈ t.shape_expr.shape →
        List.lookup d env = none →
        ∃ d2, List.lookup d2 env = none ∧
          MaskTracer.aval t = .error (.unboundSymbol d2))
  ∧ (∀ (env : Env) (x : List Int) (d : String) (axes : List Nat) (ish : List Nat),
        List.lookup d env = none →
        reduce_sum_masking_rule env [.array x] [ShapeExpr.mk [.sym d]] axes ish
          = .error (.unboundSymbol d))
  ∧ (∀ (env : Env) (s : String) (vals : List Val) (shapes : List ShapeExpr)
        (fwd : Bool) (J : TypedJaxpr) (nc k : Nat) (lin : List Bool),
        List.lookup s env = none →
        scan_masking_rule env vals shapes fwd (.sym s) J nc k lin
          = .error (.unboundSymbol s)) := by
  refine ⟨?_, ?_, ?_⟩
  · intro t env d henv hmem hnone
    obtain ⟨d2, h1, h2⟩ := derefShape_unbound env t.shape_expr.shape d hmem hnone
    exact ⟨d2, h1, by simp [MaskTracer.aval, henv, h2]⟩
  · intro env x d axes ish h
    simp [reduce_sum_masking_rule, unpack1, asArray, buildMasks, lookupEnv, h]
  · intro env s vals shapes fwd J nc k lin h
    simp [scan_masking_rule, derefDim, lookupEnv, h]

/-- Witness for C7: a tracer with shape `('m',)` under an environment that
does not bind `m`, and the two rules at the same unbound symbol. -/
theorem unbound_symbol_failure_witness :
    (∃ d2, List.lookup d2 ([("n", 1)] : Env) = none ∧
      MaskTracer.aval ⟨some [("n", 1)], Val.array [1, 2], ShapeExpr.mk [Dim.sym "m"]⟩
        = .error (.unboundSymbol d2)) ∧
    reduce_sum_masking_rule [] [.array [1, 2]] [ShapeExpr.mk [.sym "m"]] [0] [2]
      = .error (.unboundSymbol "m") ∧
    scan_masking_rule [] [] [] true (.sym "m")
      ⟨[], [], fun _ => .ok []⟩ 0 0 [] = .error (.unboundSymbol "m") :=
  ⟨unbound_symbol_failure.1
      ⟨some [("n", 1)], Val.array [1, 2], ShapeExpr.mk [Dim.sym "m"]⟩ [("n", 1)] "m"
      rfl (by decide) rfl,
    unbound_symbol_failure.2.1 [] [1, 2] "m" [0] [2] rfl,
    unbound_symbol_failure.2.2 [] "m" [] [] true ⟨[], [], fun _ => .ok []⟩ 0 0 [] rfl⟩

/-- C8: dispatch recovers the live shape environment from an operand that
carries one — the first such operand, so operands without an environment
(plain lifted constants) never shadow one that carries it; every output is
wrapped with that operand's environment; and when no operand carries one,
dispatch fails (`StopIteration`) rather than proceeding. -/
theorem shape_env_recovery :
    (∀ (tracers : List MaskTracer) (e : Env), firstEnv tracers = .ok e →
        ∃ t, t ∈ tracers ∧ t.shape_env = some e)
  ∧ (∀ (tracers : List MaskTracer), (∀ t ∈ tracers, t.shape_env = none) →
        ∀ (rules : String → Option MaskingRule) (prim : String),
          process_primitive rules prim tracers = .error .stopIteration)
  ∧ (∀ (rules : String → Option MaskingRule) (prim : String)
        (tracers outs : List MaskTracer),
        process_primitive rules prim tracers = .ok outs →
        ∃ e, (∃ t, t ∈ tracers ∧ t.shape_env = some e) ∧
          ∀ o ∈ outs, o.shape_env = some e) := by
  refine ⟨fun tracers e h => firstEnv_ok_mem h, ?_, ?_⟩
  · intro tracers h rules prim
    simp [process_primitive, firstEnv_none h]
  · intro rules prim tracers outs h
    unfold process_primitive at h
    cases he : firstEnv tracers with
    | error e0 => rw [he] at h; simp at h
    | ok e =>
      rw [he, exbind_ok] at h
      refine ⟨e, firstEnv_ok_mem he, ?_⟩
      cases hr : lookupRule rules prim with
      | error e1 => rw [hr] at h; simp at h
      | ok rule =>
        rw [hr, exbind_ok] at h
        cases hrule : rule e (tracers.map MaskTracer.val)
            (tracers.map MaskTracer.shape_expr) with
        | error e1 => rw [hrule] at h; simp at h
        | ok p =>
          rw [hrule, exbind_ok] at h
          obtain ⟨outs0, oshapes⟩ := p
          unfold zipWithSafe at h
          by_cases hlen : outs0.length = oshapes.length
          · rw [if_pos hlen] at h
            have hout : List.zipWith (fun v s => MaskTracer.mk (some e) v s) outs0 oshapes
                = outs := by
              injection h
            intro o ho
            rw [← hout] at ho
            exact mem_zipWith_mk_env outs0 oshapes o ho
          · rw [if_neg hlen] at h
            cases h

/-- Witness for C8: a plain lifted constant (no environment) before an
operand that carries one does not shadow it; outputs carry that
environment. -/
theorem shape_env_recovery_witness :
    process_primitive (fun _ => some (fun _ vals shapes => .ok (vals, shapes))) "add"
      [maskTracePure (Val.scalar 1), ⟨some [("n", 2)], Val.scalar 5, ShapeExpr.mk []⟩]
      = .ok [⟨some [("n", 2)], Val.scalar 1, ShapeExpr.mk []⟩,
             ⟨some [("n", 2)], Val.scalar 5, ShapeExpr.mk []⟩] ∧
    (∃ e, (∃ t, t ∈ [maskTracePure (Val.scalar 1),
                     ⟨some [("n", 2)], Val.scalar 5, ShapeExpr.mk []⟩] ∧
            t.shape_env = some e) ∧
      ∀ o ∈ [(⟨some [("n", 2)], Val.scalar 1, ShapeExpr.mk []⟩ : MaskTracer),
             ⟨some [("n", 2)], Val.scalar 5, ShapeExpr.mk []⟩],
        o.shape_env = some e) :=
  ⟨rfl, shape_env_recovery.2.2 (fun _ => some (fun _ vals shapes => .ok (vals, shapes)))
    "add" _ _ rfl⟩

/-- C9 counterexample: an operand with fully concrete symbolic shape does
*not* yield identical results with and without the full-lowering demotion:
demoted, the plain reduce-sum kernel returns 15; kept wrapped, the masked
reduce-sum rule builds an *empty* mask list (no symbolic axes) and
`reduce(operator.and_, [])` raises `TypeError`. -/
theorem full_lower_reduce_sum_divergence :
    MaskTracer.full_lower
      ⟨some [("n", 3)], Val.array [1, 2, 3, 4, 5], ShapeExpr.mk [Dim.fixed 5]⟩
      = .plain (Val.array [1, 2, 3, 4, 5])
  ∧ reduce_sum_impl [0] (Val.array [1, 2, 3, 4, 5]) = .ok (Val.scalar 15)
  ∧ reduce_sum_masking_rule [("n", 3)] [Val.array [1, 2, 3, 4, 5]]
      [ShapeExpr.mk [Dim.fixed 5]] [0] [5] = .error .typeError := by
  refine ⟨by decide, by decide, by decide⟩

/-- C9 amended: full lowering demotes exactly the fully concrete tracers,
and for the elementwise-addition rule the result is identical whether the
fully concrete operand stays wrapped (the rule runs) or is demoted (the
plain kernel addition runs); the masked reduce-sum rule instead fails on a
fully concrete operand when not demoted (empty mask reduction — the
counterexample). -/
theorem full_lower_concrete_add_equiv :
    (∀ t : MaskTracer, t.shape_expr.shape.all Dim.isFixed = true →
        MaskTracer.full_lower t = .plain t.val)
  ∧ (∀ (env : Env) (x y : Val) (s : ShapeExpr), s.shape.all Dim.isFixed = true →
        add_masking_rule env [x, y] [s, s] = (addVal x y).map (fun v => (v, s))) := by
  constructor
  · intro t h
    simp [MaskTracer.full_lower, h]
  · intro env x y s _h
    cases ha : addVal x y <;> simp [add_masking_rule, unpack2, ha, Except.map]

/-- Witness for C9's amended claim at concrete fully-fixed shapes. -/
theorem full_lower_concrete_add_equiv_witness :
    MaskTracer.full_lower ⟨some [], Val.array [1, 2], ShapeExpr.mk [Dim.fixed 2]⟩
      = .plain (Val.array [1, 2]) ∧
    add_masking_rule [] [Val.array [1, 2], Val.array [3, 4]]
      [ShapeExpr.mk [Dim.fixed 2], ShapeExpr.mk [Dim.fixed 2]]
      = (addVal (Val.array [1, 2]) (Val.array [3, 4])).map
          (fun v => (v, ShapeExpr.mk [Dim.fixed 2])) :=
  ⟨full_lower_concrete_add_equiv.1
      ⟨some [], Val.array [1, 2], ShapeExpr.mk [Dim.fixed 2]⟩ (by decide),
    full_lower_concrete_add_equiv.2 [] (Val.array [1, 2]) (Val.array [3, 4])
      (ShapeExpr.mk [Dim.fixed 2]) (by decide)⟩

/-- A loop-body jaxpr taking one loop constant, one carried field and one
sequence field (declared arity 3), used to exhibit the dropped-constants
slip in `_masked_scan_jaxpr`. -/
def constsBugJaxpr : TypedJaxpr :=
  { in_avals := [[], [], []], out_avals := [[]], f := fun _ => .ok [Val.scalar 0] }

/-- C2 (code bug): the first conjunct evaluates the scan rule on a loop with
one constant (`num_consts = 1`): the masked body calls the original body
with only the carry and the step input — `fun(*(carry + xs))`, the
constants it just split off are dropped — so the body receives 2 arguments
where its jaxpr declares 3 and evaluation fails the arity assert.  The
second conjunct proves the claimed freeze-correctness in the case the body
actually receives all of its declared inputs (`num_consts = 0`, the only
case the repository exercises): for any padded length `L`, dynamic length
`n ≤ L` bound in the environment, initial carry and sequence inputs, the
carry returned by the masked rule equals the carry of exactly `n` ordinary
iterations of the original body. -/
theorem scan_rule_freeze :
    (scan_masking_rule [("n", 2)] [Val.scalar 7, Val.scalar 0, Val.array [1, 2, 3]]
        [ShapeExpr.mk [], ShapeExpr.mk [], ShapeExpr.mk [Dim.sym "n"]] true (Dim.sym "n")
        constsBugJaxpr 1 1 [false, false, false] = .error .assertionError)
  ∧ (∀ (J : TypedJaxpr) (env : Env) (s : String) (n L k num_x num_ys : Nat)
      (init xs : List Val) (shape_exprs : List ShapeExpr) (linear : List Bool)
      (slices : List (List Val)),
      List.lookup s env = some n → n ≤ L →
      J.in_avals.length = k + num_x → J.out_avals.length = k + num_ys →
      init.length = k → xs ≠ [] → xs.length = num_x →
      (∀ v ∈ xs, ∃ l, v = Val.array l ∧ l.length = L) →
      sliceXs L xs = .ok slices →
      (∀ args : List Val, args.length = k + num_x →
        ∃ out, J.f args = .ok out ∧ out.length = k + num_ys ∧
          ∀ v ∈ out.drop k, ∃ j : Int, v = Val.scalar j) →
      ∃ outs out_shapes pr,
        scan_masking_rule env (init ++ xs) shape_exprs true (Dim.sym s) J 0 k linear
          = .ok (outs, out_shapes) ∧
        scanLoop (jaxpr_as_fun J) k [] init (slices.take n) = .ok pr ∧
        outs.take k = pr.1) := by
  constructor
  · decide
  · intro J env s n L k num_x num_ys init xs shape_exprs linear slices
      hlk _hnL hJin hJout hinit hne hxlen hxs hsl hwt
    obtain ⟨hslen, hrows0⟩ := @sliceXsAux_ok xs L 0 slices hsl
    have hrows : ∀ row ∈ slices, row.length = num_x :=
      fun r hr => (hrows0 r hr).trans hxlen
    obtain ⟨fc, yss, pr, hrun, hplain, hfcpr, hfcl, hyl, hys⟩ :=
      maskedScan_freeze J (Int.ofNat n) k num_x num_ys hJin hJout hwt
        slices 0 init hinit hrows
    have htn : ((Int.ofNat n : Int) - 0).toNat = n := by
      rw [Int.sub_zero]
      exact Int.toNat_ofNat n
    rw [htn] at hplain
    obtain ⟨stacked, hstacked⟩ := stackYs_ok yss hys
    have hnumys : (masked_scan_jaxpr J (Int.ofNat n) 0 k).out_avals.length - (k + 1)
        = num_ys := by
      simp [masked_scan_jaxpr]
      omega
    have hderef : derefDim env (Dim.sym s) = .ok (Int.ofNat n) := by
      simp only [derefDim]
      unfold lookupEnv
      rw [hlk, exbind_ok]
    refine ⟨fc ++ stacked,
      masked_scan_shape_rule (Dim.sym s) (shape_exprs.take k) (J.out_avals.drop k),
      pr, ?_, hplain, ?_⟩
    · simp only [scan_masking_rule]
      rw [hderef, exbind_ok]
      simp only [List.take_zero, List.drop_zero, List.nil_append]
      rw [List.take_left' hinit, List.drop_left' hinit]
      rw [uniqueLeadingDim_const xs hne hxs, exbind_ok]
      simp only [scan_bind, List.take_zero, List.drop_zero]
      rw [Nat.add_comm 1 k]
      rw [List.take_succ_cons, List.drop_succ_cons]
      rw [List.take_left' hinit, List.drop_left' hinit]
      rw [hsl, exbind_ok]
      simp only [if_true]
      rw [hrun, exbind_ok]
      rw [hnumys, hstacked, exbind_ok]
      simp [List.cons_append]
    · rw [List.take_left' hfcl]
      exact hfcpr

/-- The cumulative-sum loop body of the source demo, as a total jaxpr:
carry plus step input (arity 2, one carried output, no per-step outputs). -/
def cumsumBody : TypedJaxpr :=
  { in_avals := [[], []], out_avals := [[]]
    f := fun args => .ok [Val.scalar (args.foldl (fun acc v =>
        match v with
        | Val.scalar i => acc + i
        | Val.array _ => acc) 0)] }

/-- Witness for C2's freeze-correctness conjunct at the source's demo:
`cumsum` over `[5, 2, 9, 1, 4]` with `n = 3`. -/
theorem scan_rule_freeze_witness :
    ∃ outs out_shapes pr,
      scan_masking_rule [("n", 3)] ([Val.scalar 0] ++ [Val.array [5, 2, 9, 1, 4]])
        [ShapeExpr.mk [], ShapeExpr.mk [Dim.sym "n"]] true (Dim.sym "n") cumsumBody 0 1
        [false, false] = .ok (outs, out_shapes) ∧
      scanLoop (jaxpr_as_fun cumsumBody) 1 [] [Val.scalar 0]
        (([[Val.scalar 5], [Val.scalar 2], [Val.scalar 9], [Val.scalar 1],
           [Val.scalar 4]]).take 3) = .ok pr ∧
      outs.take 1 = pr.1 :=
  scan_rule_freeze.2 cumsumBody [("n", 3)] "n" 3 5 1 1 0 [Val.scalar 0]
    [Val.array [5, 2, 9, 1, 4]] [ShapeExpr.mk [], ShapeExpr.mk [Dim.sym "n"]]
    [false, false]
    [[Val.scalar 5], [Val.scalar 2], [Val.scalar 9], [Val.scalar 1], [Val.scalar 4]]
    rfl (by decide) rfl rfl rfl (by decide) rfl
    (by
      intro v hv
      rw [List.mem_singleton] at hv
      exact ⟨[5, 2, 9, 1, 4], hv, rfl⟩)
    rfl
    (by
      intro args _hargs
      exact ⟨_, rfl, by simp [cumsumBody], by simp⟩)

/-- C4: the masked scan rule freezes only the carry.  For every iteration
index `t < L` — including `t` at or past the dynamic length `n`, which is
an arbitrary integer here — the per-step output row emitted at step `t` of
the masked loop is exactly the original body `J.f` applied to the current
(possibly frozen) carry and that step's input, its ys part untouched: no
select or masking is applied to it by the rule. -/
theorem scan_step_outputs_unmasked (J : TypedJaxpr) (n : Int) (k num_x num_ys : Nat)
    (init : List Val) (slices : List (List Val)) (t : Nat)
    (hJin : J.in_avals.length = k + num_x) (hJout : J.out_avals.length = k + num_ys)
    (hinit : init.length = k)
    (hrows : ∀ row ∈ slices, row.length = num_x)
    (hwt : ∀ args : List Val, args.length = k + num_x →
      ∃ out, J.f args = .ok out ∧ out.length = k + num_ys ∧
        ∀ v ∈ out.drop k, ∃ j : Int, v = Val.scalar j)
    (ht : t < slices.length) :
    ∃ final yss fct ysst out,
      scanLoop (jaxpr_as_fun (masked_scan_jaxpr J n 0 k)) (k + 1) []
          (Val.scalar 0 :: init) slices = .ok (final, yss) ∧
      scanLoop (jaxpr_as_fun (masked_scan_jaxpr J n 0 k)) (k + 1) []
          (Val.scalar 0 :: init) (slices.take t)
        = .ok (Val.scalar (t : Int) :: fct, ysst) ∧
      J.f (fct ++ slices.get ⟨t, ht⟩) = .ok out ∧
      yss.get? t = some (out.drop k) := by
  have hrowspre : ∀ row ∈ slices.take t, row.length = num_x :=
    fun r hr => hrows r (List.mem_of_mem_take hr)
  obtain ⟨fct, ysst, prt, hrunt, _, _, hfctl, hylt, _⟩ :=
    maskedScan_freeze J n k num_x num_ys hJin hJout hwt (slices.take t) 0 init
      hinit hrowspre
  have htlen : (slices.take t).length = t := by
    rw [List.length_take]
    omega
  rw [htlen] at hrunt
  rw [show (0 : Int) + (t : Int) = (t : Int) from by ring] at hrunt
  rw [htlen] at hylt
  have hrow_t : (slices.get ⟨t, ht⟩).length = num_x := hrows _ (List.get_mem slices t ht)
  obtain ⟨out, hf, hlen, hsc, hmb⟩ :=
    maskedBody_step J n k num_x num_ys hJin hJout hwt (t : Int) fct
      (slices.get ⟨t, ht⟩) hfctl hrow_t
  have hfl : (if (t : Int) < n then out.take k else fct).length = k := by
    by_cases hin : (t : Int) < n
    · rw [if_pos hin, List.length_take, hlen]
      omega
    · rw [if_neg hin]
      exact hfctl
  have hrowssuf : ∀ row ∈ slices.drop (t + 1), row.length = num_x :=
    fun r hr => hrows r (List.mem_of_mem_drop hr)
  obtain ⟨fcs, ysss, prs, hruns, _, _, _, _, _⟩ :=
    maskedScan_freeze J n k num_x num_ys hJin hJout hwt (slices.drop (t + 1))
      ((t : Int) + 1) (if (t : Int) < n then out.take k else fct) hfl hrowssuf
  have hstep : scanLoop (jaxpr_as_fun (masked_scan_jaxpr J n 0 k)) (k + 1) []
      (Val.scalar (t : Int) :: fct) (slices.get ⟨t, ht⟩ :: slices.drop (t + 1))
      = .ok (Val.scalar ((t : Int) + 1 + ((slices.drop (t + 1)).length : Int)) :: fcs,
          out.drop k :: ysss) := by
    rw [scanLoop_cons, List.nil_append, List.cons_append, hmb, exbind_ok]
    rw [List.take_succ_cons, List.take_left' hfl, List.drop_succ_cons,
      List.drop_left' hfl]
    rw [hruns, exbind_ok]
  have hsplit : slices = slices.take t ++ (slices.get ⟨t, ht⟩ :: slices.drop (t + 1)) := by
    conv_lhs => rw [← List.take_append_drop t slices]
    rw [List.drop_eq_getElem_cons ht]
    rfl
  refine ⟨Val.scalar ((t : Int) + 1 + ((slices.drop (t + 1)).length : Int)) :: fcs,
    ysst ++ (out.drop k :: ysss), fct, ysst, out, ?_, hrunt, hf, ?_⟩
  · conv_lhs => rw [hsplit]
    rw [scanLoop_append, hrunt, exbind_ok, hstep, exbind_ok]
  · rw [List.get?_append_right (le_of_eq hylt), hylt]
    simp

/-- A loop body with one carried field and one per-step output
(`c + x` carried, `x * 10` emitted), total on all argument lists. -/
def cumsumYsBody : TypedJaxpr :=
  { in_avals := [[], []], out_avals := [[], []]
    f := fun args => .ok [Val.scalar (args.foldl (fun acc v =>
        match v with
        | Val.scalar i => acc + i
        | Val.array _ => acc) 0),
      Val.scalar (10 * (args.foldl (fun acc v =>
        match v with
        | Val.scalar i => i
        | Val.array _ => acc) 0))] }

/-- Witness for C4 at a step past the dynamic length: `n = 1`, step
`t = 2` of three. -/
theorem scan_step_outputs_unmasked_witness :
    ∃ final yss fct ysst out,
      scanLoop (jaxpr_as_fun (masked_scan_jaxpr cumsumYsBody 1 0 1)) (1 + 1) []
          (Val.scalar 0 :: [Val.scalar 0])
          [[Val.scalar 10], [Val.scalar 20], [Val.scalar 30]] = .ok (final, yss) ∧
      scanLoop (jaxpr_as_fun (masked_scan_jaxpr cumsumYsBody 1 0 1)) (1 + 1) []
          (Val.scalar 0 :: [Val.scalar 0])
          ([[Val.scalar 10], [Val.scalar 20], [Val.scalar 30]].take 2)
        = .ok (Val.scalar (2 : Int) :: fct, ysst) ∧
      cumsumYsBody.f (fct ++ [Val.scalar 30]) = .ok out ∧
      yss.get? 2 = some (out.drop 1) := by
  have h := scan_step_outputs_unmasked cumsumYsBody 1 1 1 1 [Val.scalar 0]
    [[Val.scalar 10], [Val.scalar 20], [Val.scalar 30]] 2 rfl rfl rfl
    (by
      intro row hrow
      fin_cases hrow <;> rfl)
    (by
      intro args _hargs
      exact ⟨_, rfl, by simp [cumsumYsBody], by simp [cumsumYsBody]⟩)
    (by decide)
  simpa using h

/-- C10: applying a call primitive under the masking trace fails
unconditionally with `NotImplementedError`. -/
theorem process_call_not_implemented (call_primitive : String)
    (f : List Val → Except Err (List Val)) (tracers : List MaskTracer) :
    process_call call_primitive f tracers = .error .notImplementedError := rfl

end Masking
